import Mathlib

/-
  Verification of the Dropbox storage backend
  (`storages/backends/dropbox.py` of django-storages).

  The Python module is shallowly embedded: pure fragments become Lean
  functions, calls to the remote Dropbox client become explicit parameters
  or event traces, and raised exceptions become `Except` errors.  Paths are
  modelled as strings over POSIX separators (the deployment platform of the
  backend); machine-level details that the module never touches are not
  modelled.
-/

set_option maxRecDepth 4000

namespace DropboxBackend

/-! ## Python string primitives used by the module -/

/-- `s.replace(old, new, 1)` of Python on character lists: replace the first
occurrence of `old` (an empty `old` inserts `new` before the string). -/
def replaceFirstL (s old new : List Char) : List Char :=
  match s with
  | [] => if old = [] then new else []
  | c :: rest =>
    if old.isPrefixOf (c :: rest) then new ++ (c :: rest).drop old.length
    else c :: replaceFirstL rest old new

/-- `s.replace(old, new, 1)` of Python for strings. -/
def pyReplaceFirst (s old new : String) : String :=
  ⟨replaceFirstL s.data old.data new.data⟩

/-- `s.replace(c, r)` of Python when both arguments are single characters:
every occurrence of `c` is rewritten to `r`. -/
def pyReplaceAllChar (c r : Char) (s : List Char) : List Char :=
  s.map (fun x => if x = c then r else x)

/-! ## POSIX path normalization (for `os.path.join` / `abspath`) -/

/-- Split a character list on a separator character, keeping empty pieces,
as `str.split(sep)` does.  The result is never empty. -/
def splitChar (sep : Char) : List Char → List (List Char)
  | [] => [[]]
  | c :: cs =>
    if c = sep then [] :: splitChar sep cs
    else
      match splitChar sep cs with
      | [] => [[c]]
      | p :: ps => (c :: p) :: ps

/-- One pass of `posixpath.normpath` over already-split components of an
absolute path: drop empty and `.` components, resolve `..` against the
accumulator (at the root, `..` stays at the root, as `abspath` does). -/
def normStep (acc : List (List Char)) : List (List Char) → List (List Char)
  | [] => acc
  | c :: cs =>
    if c = [] ∨ c = ['.'] then normStep acc cs
    else if c = ['.', '.'] then normStep acc.dropLast cs
    else normStep (acc ++ [c]) cs

/-- Normalized components of an absolute POSIX path given as characters. -/
def pathCompsL (cs : List Char) : List (List Char) :=
  normStep [] (splitChar '/' cs)

/-- Interleave a separator between pieces (`sep.join(pieces)`). -/
def joinSep (sep : Char) : List (List Char) → List Char
  | [] => []
  | [p] => p
  | p :: ps => p ++ sep :: joinSep sep ps

/-- Render normalized components back into an absolute POSIX path. -/
def renderAbs (l : List (List Char)) : List Char :=
  '/' :: joinSep '/' l

/-- `os.path.join(b, p)` on POSIX: an absolute second component discards the
first; otherwise the pieces are glued with exactly one separator. -/
def osJoin (b p : List Char) : List Char :=
  match p with
  | '/' :: _ => p
  | _ =>
    match b.getLast? with
    | some '/' => b ++ p
    | some _ => b ++ '/' :: p
    | none => p

/-- Normalized components of a string path. -/
def pathComps (s : String) : List (List Char) :=
  pathCompsL s.data

/-! ## Errors raised by the module and its collaborators -/

/-- Error raised by `django.utils._os.safe_join` when the joined path
escapes the base. -/
inductive JoinErr where
  | suspiciousFileOperation
deriving DecidableEq

/-- Classes of `dropbox.exceptions.ApiError` relevant to the module: the
not-found error and every other API error (tagged by its reason). -/
inductive ApiErr where
  | pathNotFound
  | insufficientPermissions
  | other (reason : String)
deriving DecidableEq

/-- Exceptions that a remote client call may raise: `ApiError` instances
and anything else (network failures, auth errors, ...). -/
inductive DbxError where
  | api (e : ApiErr)
  | nonApi (reason : String)
deriving DecidableEq

/-- Exceptions raised while constructing a storage instance. -/
inductive InitError where
  | improperlyConfigured (msg : String)
  | nameError (name : String)
deriving DecidableEq

/-! ## Metadata returned by `files_get_metadata` -/

/-- A child entry of a folder's metadata listing (fields the module reads). -/
structure Entry where
  path : String
  is_dir : Bool
deriving DecidableEq

/-- The metadata mapping returned by the client, restricted to the keys the
module reads: `contents`, `bytes`, `modified`, `client_mtime`. -/
structure Metadata where
  contents : List Entry
  bytes : Nat
  modified : String
  client_mtime : String
deriving DecidableEq

/-- Python truthiness of the metadata mapping (`bool(metadata)`): the
mapping returned by a successful metadata fetch always carries at least the
keys above, hence is non-empty and truthy. -/
def Metadata.toBool (_m : Metadata) : Bool := true

/-! ## `safe_join` (dependency) and `DropBoxStorage._full_path` -/

/-- Modelled from the spec: `django.utils._os.safe_join` is a Django
dependency whose body is not in `src/`.  Per its documented contract it
returns the normalized absolute version of `os.path.join(base, p)` and
raises `SuspiciousFileOperation` when that final path is not located inside
the base path component.  POSIX separators; the working directory for
`abspath` is the filesystem root. -/
def safe_join (base p : String) : Except JoinErr String :=
  let fc := pathCompsL (osJoin base.data p.data)
  let bc := pathCompsL base.data
  if bc.isPrefixOf fc then Except.ok ⟨renderAbs fc⟩
  else Except.error JoinErr.suspiciousFileOperation

/-- `DropBoxStorage._full_path`: a bare `'/'` is treated as the empty name,
then `safe_join(self.root_path, name).replace('\\', '/')`. -/
def full_path (root_path name : String) : Except JoinErr String :=
  let name := if name = "/" then "" else name
  (safe_join root_path name).map (fun s => ⟨pyReplaceAllChar '\\' '/' s.data⟩)

/-- Whether `p`, read with ordinary POSIX path semantics, stays inside
`root`: the normalized components of `root` lead those of `p`. -/
def resolvesInside (root p : String) : Bool :=
  (pathComps root).isPrefixOf (pathComps p)

/-! ## `DropBoxStorage.exists` -/

/-- `DropBoxStorage.exists`: the outcome of `files_get_metadata` on the
resolved path is passed in as `resp`.  The `try`/`except ApiError` block
turns every `ApiError` into `False`; any other exception propagates; a
successful fetch yields `bool(metadata)`. -/
def existsFn (resp : Except DbxError Metadata) : Except DbxError Bool :=
  match resp with
  | Except.ok m => Except.ok m.toBool
  | Except.error (DbxError.api _) => Except.ok false
  | Except.error e => Except.error e

/-! ## `DropBoxStorage.listdir` -/

/-- The per-entry rewrite inside the `listdir` loop:
`entry['path'].replace(full_path, '', 1).replace('/', '', 1)`. -/
def listdirName (full_path entryPath : String) : String :=
  pyReplaceFirst (pyReplaceFirst entryPath full_path "") "/" ""

/-- The `listdir` loop: walk the folder's `contents` in the remote-reported
order, appending each rewritten child path to `directories` or `files`
according to its `is_dir` flag. -/
def listdirLoop (full_path : String) (contents : List Entry) :
    List String × List String :=
  contents.foldl
    (fun acc e =>
      let p := listdirName full_path e.path
      if e.is_dir then (acc.1 ++ [p], acc.2) else (acc.1, acc.2 ++ [p]))
    ([], [])

/-- `DropBoxStorage.listdir`: resolve the path, fetch the folder metadata
(passed in as `meta`), partition the children. -/
def listdir (root_path path : String) (meta : Metadata) :
    Except JoinErr (List String × List String) :=
  (full_path root_path path).map (fun fp => listdirLoop fp meta.contents)

/-! ## `DropBoxStorage._save` and `_chunked_upload`

The uploaded content is a seekable stream; the module only ever observes
its `size`, its position (`tell`), and the byte counts of its `read` calls,
so the stream is modelled by those two numbers.  Each remote upload call is
recorded as an event carrying the number of bytes handed to it. -/

/-- `DropBoxStorage.CHUNK_SIZE = 4 * 1024 * 1024`. -/
def CHUNK_SIZE : Nat := 4 * 1024 * 1024

/-- A seekable content stream: total size and current read position.
`read(n)` advances the position by `min n (size - pos)` and hands back that
many bytes. -/
structure Content where
  size : Nat
  pos : Nat
deriving DecidableEq

/-- `content.read(n)`: the number of bytes obtained and the advanced
stream. -/
def Content.read (c : Content) (n : Nat) : Nat × Content :=
  let k := min n (c.size - c.pos)
  (k, { c with pos := c.pos + k })

/-- `content.tell()`. -/
def Content.tell (c : Content) : Nat := c.pos

/-- One remote upload call, with the number of bytes passed to it. -/
inductive Call where
  | filesUpload (bytes : Nat)
  | sessionStart (bytes : Nat)
  | sessionAppend (bytes : Nat)
  | sessionFinish (bytes : Nat)
deriving DecidableEq

def Call.isUpload : Call → Bool
  | Call.filesUpload _ => true
  | _ => false

def Call.isStart : Call → Bool
  | Call.sessionStart _ => true
  | _ => false

def Call.isAppend : Call → Bool
  | Call.sessionAppend _ => true
  | _ => false

def Call.isFinish : Call → Bool
  | Call.sessionFinish _ => true
  | _ => false

/-- Bytes carried by one call. -/
def Call.bytes : Call → Nat
  | Call.filesUpload b => b
  | Call.sessionStart b => b
  | Call.sessionAppend b => b
  | Call.sessionFinish b => b

/-- Total bytes across a trace of calls. -/
def sumBytes (l : List Call) : Nat := (l.map Call.bytes).sum

/-- The `while content.tell() < content.size` loop of `_chunked_upload`,
run with explicit fuel (`none` means the fuel ran out before the loop
exited).  Each iteration reads one chunk and either finishes the session
(when at most one chunk remains — `≤`, not `<`) or appends it; the loop
then re-tests its condition.  The result is the trace of session calls of
the loop together with the final stream state. -/
def chunkedLoopF : Nat → Content → Option (List Call × Content)
  | 0, c => if c.tell < c.size then none else some ([], c)
  | fuel + 1, c =>
    if c.tell < c.size then
      if c.size - c.tell ≤ CHUNK_SIZE then
        (chunkedLoopF fuel (c.read CHUNK_SIZE).2).map
          (fun r => (Call.sessionFinish (c.read CHUNK_SIZE).1 :: r.1, r.2))
      else
        (chunkedLoopF fuel (c.read CHUNK_SIZE).2).map
          (fun r => (Call.sessionAppend (c.read CHUNK_SIZE).1 :: r.1, r.2))
    else some ([], c)

/-- `DropBoxStorage._chunked_upload`: start a session with the first chunk
(the cursor offset is set to `content.tell()`), then run the loop.  Fuel
`content.size` is always enough (proved below). -/
def chunked_upload (c : Content) : Option (List Call × Content) :=
  (chunkedLoopF c.size (c.read CHUNK_SIZE).2).map
    (fun r => (Call.sessionStart (c.read CHUNK_SIZE).1 :: r.1, r.2))

/-- `DropBoxStorage._save` on a fresh stream of `size` bytes:
`content.open()` leaves the stream at position 0; a payload of at most
`CHUNK_SIZE` bytes goes through a single `files_upload(content.read(), ...)`,
anything larger through `_chunked_upload`. -/
def save (size : Nat) : Option (List Call) :=
  let c : Content := ⟨size, 0⟩
  if c.size ≤ CHUNK_SIZE then some [Call.filesUpload (c.read c.size).1]
  else (chunked_upload c).map (fun r => r.1)

/-! ## `DropBoxFile` -/

/-- The spooled temporary buffer backing a `DropBoxFile`: the copied bytes
and the read position. -/
structure Buffer where
  data : List Nat
  pos : Nat
deriving DecidableEq

/-- Observable state of a `DropBoxFile`: the cached `_file` attribute (if
set) and the number of `files_download` calls issued so far. -/
structure FileState where
  cache : Option Buffer
  downloads : Nat
deriving DecidableEq

/-- The `DropBoxFile.file` property: when `_file` is unset, download the
object (`remote` is its content), copy the response into a fresh
`SpooledTemporaryFile`, `seek(0)`, and cache it; otherwise hand back the
cached buffer. -/
def DropBoxFile.file (remote : List Nat) (st : FileState) :
    Buffer × FileState :=
  match st.cache with
  | some b => (b, st)
  | none =>
    let b : Buffer := ⟨remote, 0⟩
    (b, ⟨some b, st.downloads + 1⟩)

/-! ## `datetime.strptime` with `DATE_FORMAT`

`DATE_FORMAT = '%a, %d %b %Y %X +0000'`.  Under the C locale `%X` stands
for `%H:%M:%S`.  `strptime` matches the whole string against the regex the
format compiles to, case-insensitively, with a literal space matching one
or more whitespace characters; the matched fields then go through the
`datetime` constructor, which checks the day against the month length and
the second against 0..59. -/

/-- The module's timestamp format string. -/
def DATE_FORMAT : String := "%a, %d %b %Y %X +0000"

/-- The parsed timestamp (the fields of the resulting `datetime`). -/
structure PDateTime where
  year : Nat
  month : Nat
  day : Nat
  hour : Nat
  minute : Nat
  second : Nat
deriving DecidableEq

/-- Python `\s` (whitespace class of `re`). -/
def isPySpace (c : Char) : Bool :=
  c = ' ' ∨ c = '\t' ∨ c = '\n' ∨ c = '\r' ∨ c = '\x0b' ∨ c = '\x0c'

/-- Consume one-or-more whitespace (a literal blank in the format). -/
def eatWs1 : List Char → Option (List Char)
  | c :: rest => if isPySpace c then some (rest.dropWhile isPySpace) else none
  | [] => none

/-- Consume an exact literal (the input is already lowercased). -/
def eatLit (lit : List Char) (s : List Char) : Option (List Char) :=
  if lit.isPrefixOf s then some (s.drop lit.length) else none

/-- The lowercased weekday abbreviations accepted by `%a`. -/
def weekdayAbbrevs : List (List Char) :=
  [['m','o','n'], ['t','u','e'], ['w','e','d'], ['t','h','u'],
   ['f','r','i'], ['s','a','t'], ['s','u','n']]

/-- Consume a `%a` weekday abbreviation. -/
def eatWeekday (s : List Char) : Option (List Char) :=
  (weekdayAbbrevs.filterMap (fun w => eatLit w s)).head?

/-- The lowercased month abbreviations accepted by `%b`, with values. -/
def monthAbbrevs : List (List Char × Nat) :=
  [(['j','a','n'], 1), (['f','e','b'], 2), (['m','a','r'], 3),
   (['a','p','r'], 4), (['m','a','y'], 5), (['j','u','n'], 6),
   (['j','u','l'], 7), (['a','u','g'], 8), (['s','e','p'], 9),
   (['o','c','t'], 10), (['n','o','v'], 11), (['d','e','c'], 12)]

/-- Consume a `%b` month abbreviation, yielding the month number. -/
def eatMonth (s : List Char) : Option (Nat × List Char) :=
  (monthAbbrevs.filterMap
    (fun mw => (eatLit mw.1 s).map (fun rest => (mw.2, rest)))).head?

def digitVal (c : Char) : Nat := c.toNat - '0'.toNat

/-- Consume one or two digits greedily (the numeric directives match at
most two digits; when two digits are present a one-digit parse would leave
a digit where the following delimiter is required, so greediness loses no
matches), then require the value to lie in `lo..hi`. -/
def eatNum2 (lo hi : Nat) : List Char → Option (Nat × List Char)
  | c1 :: c2 :: rest =>
    if c1.isDigit ∧ c2.isDigit then
      let v := digitVal c1 * 10 + digitVal c2
      if lo ≤ v ∧ v ≤ hi then some (v, rest) else none
    else if c1.isDigit then
      let v := digitVal c1
      if lo ≤ v ∧ v ≤ min hi 9 then some (v, c2 :: rest) else none
    else none
  | [c1] =>
    if c1.isDigit then
      let v := digitVal c1
      if lo ≤ v ∧ v ≤ min hi 9 then some (v, []) else none
    else none
  | [] => none

/-- Consume exactly four digits (`%Y`). -/
def eatYear : List Char → Option (Nat × List Char)
  | c1 :: c2 :: c3 :: c4 :: rest =>
    if c1.isDigit ∧ c2.isDigit ∧ c3.isDigit ∧ c4.isDigit then
      some (((digitVal c1 * 10 + digitVal c2) * 10 + digitVal c3) * 10 +
        digitVal c4, rest)
    else none
  | _ => none

/-- Gregorian leap year. -/
def isLeap (y : Nat) : Bool :=
  y % 4 = 0 ∧ (y % 100 ≠ 0 ∨ y % 400 = 0)

/-- Length of a month, as `datetime` validates it. -/
def daysInMonth (y m : Nat) : Nat :=
  if m = 2 then (if isLeap y then 29 else 28)
  else if m = 4 ∨ m = 6 ∨ m = 9 ∨ m = 11 then 30
  else 31

/-- `datetime.strptime(s, DATE_FORMAT)` as an `Option`: `none` is the
`ValueError` of a failed match, of trailing unconverted data, or of an
out-of-range day.  (The `%S` regex also admits 60 and 61, but the
`datetime` constructor rejects them, so both paths raise `ValueError`.) -/
def strptimeDropbox (s : String) : Option PDateTime := do
  let cs := s.data.map Char.toLower
  let cs ← eatWeekday cs
  let cs ← eatLit [','] cs
  let cs ← eatWs1 cs
  let (day, cs) ← eatNum2 1 31 cs
  let cs ← eatWs1 cs
  let (month, cs) ← eatMonth cs
  let cs ← eatWs1 cs
  let (year, cs) ← eatYear cs
  let cs ← eatWs1 cs
  let (hour, cs) ← eatNum2 0 23 cs
  let cs ← eatLit [':'] cs
  let (minute, cs) ← eatNum2 0 59 cs
  let cs ← eatLit [':'] cs
  let (second, cs) ← eatNum2 0 59 cs
  let cs ← eatWs1 cs
  let cs ← eatLit ['+','0','0','0','0'] cs
  if cs = [] ∧ day ≤ daysInMonth year month then
    some ⟨year, month, day, hour, minute, second⟩
  else none

/-- `DropBoxStorage.modified_time`: fetch metadata (passed in), then
`datetime.strptime(metadata['modified'], DATE_FORMAT)`; a `ValueError`
from the parse propagates uncaught. -/
def modified_time (md : Metadata) : Except String PDateTime :=
  match strptimeDropbox md.modified with
  | some d => Except.ok d
  | none => Except.error "ValueError"

/-- `DropBoxStorage.accessed_time`: same with `metadata['client_mtime']`. -/
def accessed_time (md : Metadata) : Except String PDateTime :=
  match strptimeDropbox md.client_mtime with
  | some d => Except.ok d
  | none => Except.error "ValueError"

/-- Days in the years 1970, ..., 1969 + n. -/
def daysFrom1970 : Nat → Nat
  | 0 => 0
  | n + 1 => daysFrom1970 n + (if isLeap (1970 + n) then 366 else 365)

/-- Days in the months `1, ..., m` of year `y`. -/
def daysOfMonths (y : Nat) : Nat → Nat
  | 0 => 0
  | m + 1 => daysOfMonths y m + daysInMonth y (m + 1)

/-- Unix timestamp (seconds since 1970-01-01T00:00:00Z) of a parsed
timestamp, fixing the absolute point in time it denotes (`+0000`). -/
def epochSeconds (d : PDateTime) : Nat :=
  let days := daysFrom1970 (d.year - 1970) + daysOfMonths d.year (d.month - 1)
    + (d.day - 1)
  ((days * 24 + d.hour) * 60 + d.minute) * 60 + d.second

/-! ## Construction of the storage instances

`setting(name, default)` reads the named Django setting, so the relevant
settings are passed in as a record of optional values.  Python's `a or b`
on token strings falls through on falsy values, i.e. on `None` and on the
empty string. -/

/-- The Django settings the module reads. -/
structure Settings where
  oauth2Token : Option String
  rootPath : Option String
  teamNamespace : Option String
  teamAdmin : Option String
deriving DecidableEq

/-- Python `a or b` for two optional strings (`None` and `''` are falsy). -/
def pyOrO (a b : Option String) : Option String :=
  match a with
  | some s => if s = "" then b else some s
  | none => b

/-- Python `a or b` where `b` is the already-defaulted setting value. -/
def pyOr (a : Option String) (b : String) : String :=
  match a with
  | some s => if s = "" then b else s
  | none => b

/-- The base Dropbox client, as the module configures it. -/
structure Client where
  token : String
deriving DecidableEq

/-- State of a constructed `DropBoxStorage`. -/
structure StorageState where
  root_path : String
  client : Client
deriving DecidableEq

/-- `DropBoxStorage.__init__`: resolve the token and root path from the
arguments and settings, raise `ImproperlyConfigured` when the token is
`None`, then build the client. -/
def storageInit (st : Settings) (oauth2_access_token root_path : Option String) :
    Except InitError StorageState :=
  let tok := pyOrO oauth2_access_token st.oauth2Token
  let root := pyOr root_path (st.rootPath.getD "/")
  match tok with
  | none => Except.error (InitError.improperlyConfigured
      "You must configure a token auth at'settings.DROPBOX_OAUTH2_TOKEN'.")
  | some t => Except.ok ⟨root, ⟨t⟩⟩

/-- Names visible in the module's global scope: its `import`ed names and
its own top-level definitions, read off the source file.  `DropboxTeam`
is not among them. -/
def moduleScope : List String :=
  ["absolute_import", "datetime", "copyfileobj", "SpooledTemporaryFile",
   "ImproperlyConfigured", "File", "Storage", "safe_join", "deconstructible",
   "Dropbox", "ApiError", "CommitInfo", "UploadSessionCursor", "setting",
   "DATE_FORMAT", "DropBoxStorageException", "DropBoxFile", "DropBoxStorage",
   "DropBoxTeamStorage"]

/-- The team client the constructor attempts to build: a `DropboxTeam`
bound to the token, carrying the namespace-scoped path-root header, turned
into a user client by `as_admin`. -/
structure TeamClient where
  token : String
  pathRootHeader : String
  asAdminMemberId : String
deriving DecidableEq

/-- State of a constructed `DropBoxTeamStorage`. -/
structure TeamStorageState where
  root_path : String
  client : TeamClient
deriving DecidableEq

/-- The value of the `Dropbox-API-Path-Root` header for a namespace. -/
def pathRootHeaderFor (ns : String) : String :=
  "\x7b\".tag\": \"namespace_id\", \"namespace_id\": \"" ++ ns ++ "\"\x7d"

/-- `DropBoxTeamStorage.__init__`: resolve token, namespace, admin and root
path; raise `ImproperlyConfigured` for a missing token, then namespace,
then admin; finally evaluate the `DropboxTeam(...)` expression, which first
looks the name `DropboxTeam` up in the module scope — absent there, the
lookup raises `NameError` instead of building the client. -/
def teamStorageInit (st : Settings)
    (oauth2_access_token root_path team_namespace team_admin : Option String) :
    Except InitError TeamStorageState :=
  let tok := pyOrO oauth2_access_token st.oauth2Token
  let ns := pyOrO team_namespace st.teamNamespace
  let adm := pyOrO team_admin st.teamAdmin
  let root := pyOr root_path (st.rootPath.getD "/")
  match tok with
  | none => Except.error (InitError.improperlyConfigured
      "You must configure a token auth at'settings.DROPBOX_OAUTH2_TOKEN'.")
  | some t =>
    match ns with
    | none => Except.error (InitError.improperlyConfigured
        "You must configure a namespace at'settings.DROPBOX_TEAM_NAMESPACE'.")
    | some nsv =>
      match adm with
      | none => Except.error (InitError.improperlyConfigured
          "You must configure an admin at'settings.DROPBOX_TEAM_ADMIN'.")
      | some admv =>
        if "DropboxTeam" ∈ moduleScope then
          Except.ok ⟨root, ⟨t, pathRootHeaderFor nsv, "dbmid:" ++ admv⟩⟩
        else Except.error (InitError.nameError "DropboxTeam")

/-! ## Lemmas: the chunked-upload loop -/

theorem chunkedLoopF_done (fuel : Nat) (c : Content) (h : c.size ≤ c.pos) :
    chunkedLoopF fuel c = some ([], c) := by
  cases fuel with
  | zero => simp [chunkedLoopF, Content.tell, Nat.not_lt.mpr h]
  | succ fuel => simp [chunkedLoopF, Content.tell, Nat.not_lt.mpr h]

/-- Full characterization of the loop on an unfinished stream: a run of
full-chunk appends followed by exactly one finish carrying the positive
remainder `r ≤ CHUNK_SIZE`, ending with the stream fully read. -/
theorem chunkedLoopF_shape (fuel : Nat) :
    ∀ c : Content, 0 < c.size - c.pos → c.size - c.pos ≤ fuel →
    ∃ n r, chunkedLoopF fuel c =
        some (List.replicate n (Call.sessionAppend CHUNK_SIZE) ++
          [Call.sessionFinish r], ⟨c.size, c.size⟩) ∧
      n * CHUNK_SIZE + r = c.size - c.pos ∧ 0 < r ∧ r ≤ CHUNK_SIZE := by
  induction fuel with
  | zero => intro c h hf; omega
  | succ fuel ih =>
    intro c h hf
    have hpos : c.pos < c.size := by omega
    by_cases hsmall : c.size - c.pos ≤ CHUNK_SIZE
    · refine ⟨0, c.size - c.pos, ?_, by omega, h, hsmall⟩
      have hk : min CHUNK_SIZE (c.size - c.pos) = c.size - c.pos := by omega
      have hdone : chunkedLoopF fuel ⟨c.size, c.pos + (c.size - c.pos)⟩ =
          some ([], ⟨c.size, c.pos + (c.size - c.pos)⟩) :=
        chunkedLoopF_done fuel _ (by simp; omega)
      have hpe : c.pos + (c.size - c.pos) = c.size := by omega
      simp [chunkedLoopF, Content.tell, Content.read, hpos, hsmall, hk,
        hpe, hpe ▸ hdone]
    · have hk : min CHUNK_SIZE (c.size - c.pos) = CHUNK_SIZE := by omega
      have hC : 0 < CHUNK_SIZE := by decide
      obtain ⟨n, r, heq, hsum, hr0, hrC⟩ :=
        ih ⟨c.size, c.pos + CHUNK_SIZE⟩ (by simp; omega) (by simp; omega)
      simp only at hsum
      refine ⟨n + 1, r, ?_, by rw [Nat.succ_mul]; omega, hr0, hrC⟩
      simp [chunkedLoopF, Content.tell, Content.read, hpos, hsmall, hk, heq,
        List.replicate_succ]

/-- `_chunked_upload` on a fresh oversized stream: one session-start with a
full chunk, `n` full-chunk appends, one finish with the remainder, and the
stream is fully consumed. -/
theorem chunked_upload_shape (s : Nat) (hs : CHUNK_SIZE < s) :
    ∃ n r, chunked_upload ⟨s, 0⟩ =
        some (Call.sessionStart CHUNK_SIZE ::
          (List.replicate n (Call.sessionAppend CHUNK_SIZE) ++
            [Call.sessionFinish r]), ⟨s, s⟩) ∧
      CHUNK_SIZE + (n * CHUNK_SIZE + r) = s ∧ 0 < r ∧ r ≤ CHUNK_SIZE := by
  obtain ⟨n, r, heq, hsum, hr0, hrC⟩ :=
    chunkedLoopF_shape s ⟨s, CHUNK_SIZE⟩ (by simp; omega) (by simp)
  simp only at hsum heq
  refine ⟨n, r, ?_, by omega, hr0, hrC⟩
  have hk : (Content.read ⟨s, 0⟩ CHUNK_SIZE) = (CHUNK_SIZE, ⟨s, CHUNK_SIZE⟩) := by
    simp [Content.read]; omega
  simp [chunked_upload, hk, heq]

theorem countP_replicate {α : Type} (p : α → Bool) (x : α) (n : Nat) :
    (List.replicate n x).countP p = if p x then n else 0 := by
  induction n with
  | zero => simp
  | succ n ih => simp [List.replicate_succ, List.countP_cons, ih]; split <;> omega

theorem sumBytes_append (a b : List Call) :
    sumBytes (a ++ b) = sumBytes a + sumBytes b := by
  simp [sumBytes]

theorem sumBytes_cons (a : Call) (l : List Call) :
    sumBytes (a :: l) = a.bytes + sumBytes l := by
  simp [sumBytes]

theorem sumBytes_replicate (n : Nat) (x : Call) :
    sumBytes (List.replicate n x) = n * x.bytes := by
  induction n with
  | zero => simp [sumBytes]
  | succ n ih =>
    simp only [List.replicate_succ, sumBytes, List.map_cons, List.sum_cons] at ih ⊢
    rw [Nat.succ_mul]
    omega

/-! ## Claim theorems: upload behavior -/

/-- C1: for a saved content of size `s`, if `s ≤ 4 MiB` exactly one
single-shot upload call with the full payload occurs and no session calls
occur; if `s > 4 MiB`, exactly one session-start, zero or more
session-append, and exactly one session-finish call occur, the bytes across
all chunk reads sum to `s`, and when `s` is an exact multiple of the chunk
size the final chunk goes through session-finish, not session-append. -/
theorem c1_save_upload_calls (s : Nat) :
    (s ≤ CHUNK_SIZE → save s = some [Call.filesUpload s]) ∧
    (CHUNK_SIZE < s → ∃ t, save s = some t ∧
      t.countP Call.isUpload = 0 ∧
      t.countP Call.isStart = 1 ∧
      t.countP Call.isFinish = 1 ∧
      sumBytes t = s ∧
      (s % CHUNK_SIZE = 0 →
        t.getLast? = some (Call.sessionFinish CHUNK_SIZE))) := by
  constructor
  · intro h
    simp [save, Content.read, h]
  · intro h
    obtain ⟨n, r, heq, hsum, hr0, hrC⟩ := chunked_upload_shape s h
    refine ⟨Call.sessionStart CHUNK_SIZE ::
      (List.replicate n (Call.sessionAppend CHUNK_SIZE) ++
        [Call.sessionFinish r]), ?_, ?_, ?_, ?_, ?_, ?_⟩
    · simp [save, Nat.not_le.mpr h, heq]
    · simp [List.countP_cons, List.countP_append, countP_replicate,
        Call.isUpload]
    · simp [List.countP_cons, List.countP_append, countP_replicate,
        Call.isStart, Call.isAppend, Call.isFinish]
    · simp [List.countP_cons, List.countP_append, countP_replicate,
        Call.isStart, Call.isAppend, Call.isFinish]
    · rw [sumBytes_cons, sumBytes_append, sumBytes_replicate]
      simp [sumBytes, Call.bytes]
      omega
    · intro hmod
      have hr : r = CHUNK_SIZE := by
        have hd : CHUNK_SIZE ∣ s := Nat.dvd_of_mod_eq_zero hmod
        have hd2 : CHUNK_SIZE ∣ (CHUNK_SIZE + n * CHUNK_SIZE) :=
          ⟨1 + n, by ring⟩
        have hd3 : CHUNK_SIZE ∣ r := by
          have : r = s - (CHUNK_SIZE + n * CHUNK_SIZE) := by omega
          exact this ▸ Nat.dvd_sub' hd hd2
        exact Nat.le_antisymm hrC (Nat.le_of_dvd hr0 hd3)
      subst hr
      rw [show Call.sessionStart CHUNK_SIZE ::
          (List.replicate n (Call.sessionAppend CHUNK_SIZE) ++
            [Call.sessionFinish CHUNK_SIZE]) =
          (Call.sessionStart CHUNK_SIZE ::
            List.replicate n (Call.sessionAppend CHUNK_SIZE)) ++
            [Call.sessionFinish CHUNK_SIZE] from by simp]
      exact List.getLast?_concat _

/-- Witness for C1 at the concrete sizes 3 and 8 MiB. -/
theorem c1_save_upload_calls_witness :
    save 3 = some [Call.filesUpload 3] ∧
    (∃ t, save 8388608 = some t ∧
      t.countP Call.isUpload = 0 ∧
      t.countP Call.isStart = 1 ∧
      t.countP Call.isFinish = 1 ∧
      sumBytes t = 8388608 ∧
      (8388608 % CHUNK_SIZE = 0 →
        t.getLast? = some (Call.sessionFinish CHUNK_SIZE))) :=
  ⟨(c1_save_upload_calls 3).1 (by decide),
   (c1_save_upload_calls 8388608).2 (by decide)⟩

/-- C9: on a content stream larger than 4 MiB whose reads advance the
position by the requested byte count (capped at the remainder), the
chunked-upload loop terminates — fuel equal to the byte size is enough —
with the whole stream read and exactly one session-finish issued. -/
theorem c9_chunked_upload_termination (s : Nat) (h : CHUNK_SIZE < s) :
    ∃ t cf, chunked_upload ⟨s, 0⟩ = some (t, cf) ∧
      cf.pos = cf.size ∧
      t.countP Call.isFinish = 1 ∧
      sumBytes t = s := by
  obtain ⟨n, r, heq, hsum, hr0, hrC⟩ := chunked_upload_shape s h
  refine ⟨_, _, heq, rfl, ?_, ?_⟩
  · simp [List.countP_cons, List.countP_append, countP_replicate,
      Call.isFinish]
  · rw [sumBytes_cons, sumBytes_append, sumBytes_replicate]
    simp [sumBytes, Call.bytes]
    omega

/-- Witness for C9 one byte past the chunk size. -/
theorem c9_chunked_upload_termination_witness :
    ∃ t cf, chunked_upload ⟨4194305, 0⟩ = some (t, cf) ∧
      cf.pos = cf.size ∧
      t.countP Call.isFinish = 1 ∧
      sumBytes t = 4194305 :=
  c9_chunked_upload_termination 4194305 (by decide)

/-! ## Claim theorems: `exists` -/

/-- C2: `exists` returns `False` — without raising — when the metadata call
raises a not-found `ApiError`, and returns `True` whenever the metadata
fetch succeeds. -/
theorem c2_exists_not_found :
    (∀ m : Metadata, existsFn (Except.ok m) = Except.ok true) ∧
    existsFn (Except.error (DbxError.api ApiErr.pathNotFound)) =
      Except.ok false :=
  ⟨fun _ => rfl, rfl⟩

/-- Witness for C2 on a concrete metadata value. -/
theorem c2_exists_not_found_witness :
    existsFn (Except.ok ⟨[], 7, "", ""⟩) = Except.ok true ∧
    existsFn (Except.error (DbxError.api ApiErr.pathNotFound)) =
      Except.ok false :=
  ⟨c2_exists_not_found.1 _, c2_exists_not_found.2⟩

/-- C10: the `except ApiError` clause catches every `ApiError`, not only
not-found, so `exists` returns `False` instead of propagating any remote
API error — a permission-denied API error also yields `False`. -/
theorem c10_exists_any_api_error (e : ApiErr) :
    existsFn (Except.error (DbxError.api e)) = Except.ok false := by
  cases e <;> rfl

/-- Witness for C10 at a permission-denied API error. -/
theorem c10_exists_any_api_error_witness :
    existsFn (Except.error (DbxError.api ApiErr.insufficientPermissions)) =
      Except.ok false :=
  c10_exists_any_api_error ApiErr.insufficientPermissions

/-! ## Claim theorems: `DropBoxFile` -/

/-- C8: on a fresh `DropBoxFile`, the first buffer access issues exactly
one download, stores the stream in a buffer rewound to position 0, and
caches it; accessing again after any access returns the very same buffer
and state — in particular no further download. -/
theorem c8_file_lazy_cache (remote : List Nat) (st : FileState) :
    DropBoxFile.file remote ⟨none, 0⟩ =
      (⟨remote, 0⟩, ⟨some ⟨remote, 0⟩, 1⟩) ∧
    DropBoxFile.file remote (DropBoxFile.file remote st).2 =
      DropBoxFile.file remote st := by
  refine ⟨rfl, ?_⟩
  cases h : st.cache <;> simp [DropBoxFile.file, h]

/-- Witness for C8 on a concrete remote object and state. -/
theorem c8_file_lazy_cache_witness :
    DropBoxFile.file [10, 20] ⟨none, 0⟩ =
      (⟨[10, 20], 0⟩, ⟨some ⟨[10, 20], 0⟩, 1⟩) ∧
    DropBoxFile.file [10, 20] (DropBoxFile.file [10, 20] ⟨none, 5⟩).2 =
      DropBoxFile.file [10, 20] ⟨none, 5⟩ :=
  c8_file_lazy_cache [10, 20] ⟨none, 5⟩

/-! ## Claim theorems: construction -/

/-- C6: team-variant construction raises `ImproperlyConfigured` whenever
the namespace or the admin identifier resolves to nothing (absent from the
arguments and the settings), even with a token present; base construction
raises `ImproperlyConfigured` whenever the token resolves to nothing. -/
theorem c6_config_errors :
    (∀ (st : Settings) (t : String) (root adm : Option String), t ≠ "" →
      st.teamNamespace = none →
      ∃ m, teamStorageInit st (some t) root none adm =
        Except.error (InitError.improperlyConfigured m)) ∧
    (∀ (st : Settings) (t : String) (root ns : Option String), t ≠ "" →
      st.teamAdmin = none →
      ∃ m, teamStorageInit st (some t) root ns none =
        Except.error (InitError.improperlyConfigured m)) ∧
    (∀ (st : Settings) (root : Option String), st.oauth2Token = none →
      ∃ m, storageInit st none root =
        Except.error (InitError.improperlyConfigured m)) := by
  refine ⟨?_, ?_, ?_⟩
  · intro st t root adm ht hns
    have htok : pyOrO (some t) st.oauth2Token = some t := by simp [pyOrO, ht]
    have hns2 : pyOrO none st.teamNamespace = none := by simp [pyOrO, hns]
    refine ⟨"You must configure a namespace at'settings.DROPBOX_TEAM_NAMESPACE'.", ?_⟩
    simp only [teamStorageInit, htok, hns2]
  · intro st t root ns ht hadm
    have htok : pyOrO (some t) st.oauth2Token = some t := by simp [pyOrO, ht]
    have hadm2 : pyOrO none st.teamAdmin = none := by simp [pyOrO, hadm]
    cases hns : pyOrO ns st.teamNamespace with
    | none =>
      refine ⟨"You must configure a namespace at'settings.DROPBOX_TEAM_NAMESPACE'.", ?_⟩
      simp only [teamStorageInit, htok, hns]
    | some nsv =>
      refine ⟨"You must configure an admin at'settings.DROPBOX_TEAM_ADMIN'.", ?_⟩
      simp only [teamStorageInit, htok, hns, hadm2]
  · intro st root htok
    have htok2 : pyOrO none st.oauth2Token = none := by simp [pyOrO, htok]
    refine ⟨"You must configure a token auth at'settings.DROPBOX_OAUTH2_TOKEN'.", ?_⟩
    simp only [storageInit, htok2]

/-- Witness for C6 at concrete missing settings. -/
theorem c6_config_errors_witness :
    (∃ m, teamStorageInit ⟨none, none, none, none⟩ (some "tok") none none
        (some "adm") = Except.error (InitError.improperlyConfigured m)) ∧
    (∃ m, teamStorageInit ⟨none, none, some "ns", none⟩ (some "tok") none
        none none = Except.error (InitError.improperlyConfigured m)) ∧
    (∃ m, storageInit ⟨none, none, none, none⟩ none none =
        Except.error (InitError.improperlyConfigured m)) :=
  ⟨c6_config_errors.1 ⟨none, none, none, none⟩ "tok" none (some "adm")
      (by decide) rfl,
   c6_config_errors.2.1 ⟨none, none, some "ns", none⟩ "tok" none none
      (by decide) rfl,
   c6_config_errors.2.2 ⟨none, none, none, none⟩ none rfl⟩

/-- C5 (code evaluated at the failing input): with a token, a namespace and
an admin all supplied, `DropBoxTeamStorage.__init__` does not build the
namespace-scoped impersonating client — the name `DropboxTeam` is absent
from the module scope (it is never imported), so evaluating the
`DropboxTeam(...)` expression raises `NameError`. -/
theorem c5_team_init_raises_name_error :
    teamStorageInit ⟨none, none, none, none⟩ (some "token") (some "/")
      (some "ns") (some "admin") =
    Except.error (InitError.nameError "DropboxTeam") := by
  rfl

/-! ## Claim theorems: timestamp parsing -/

/-- C7: `modified_time` and `accessed_time` parse timestamps with the
fixed format `'%a, %d %b %Y %X +0000'` — the literal
`"Mon, 01 Jan 2024 12:00:00 +0000"` yields 2024-01-01T12:00:00, the
absolute instant 1704110400 s after the Unix epoch — and any string the
format does not parse makes them propagate the `ValueError` instead of
returning a default. -/
theorem c7_time_parsing :
    (∀ md : Metadata, md.modified = "Mon, 01 Jan 2024 12:00:00 +0000" →
      modified_time md = Except.ok ⟨2024, 1, 1, 12, 0, 0⟩) ∧
    (∀ md : Metadata, md.client_mtime = "Mon, 01 Jan 2024 12:00:00 +0000" →
      accessed_time md = Except.ok ⟨2024, 1, 1, 12, 0, 0⟩) ∧
    epochSeconds ⟨2024, 1, 1, 12, 0, 0⟩ = 1704110400 ∧
    (∀ md : Metadata, strptimeDropbox md.modified = none →
      modified_time md = Except.error "ValueError") ∧
    (∀ md : Metadata, strptimeDropbox md.client_mtime = none →
      accessed_time md = Except.error "ValueError") ∧
    strptimeDropbox "Mon, 32 Jan 2024 12:00:00 +0000" = none := by
  have hlit : strptimeDropbox "Mon, 01 Jan 2024 12:00:00 +0000" =
      some ⟨2024, 1, 1, 12, 0, 0⟩ := by decide
  refine ⟨?_, ?_, by decide, ?_, ?_, by decide⟩
  · intro md h; simp [modified_time, h, hlit]
  · intro md h; simp [accessed_time, h, hlit]
  · intro md h; simp [modified_time, h]
  · intro md h; simp [accessed_time, h]

/-- Witness for C7 at a concrete well-formed and a concrete malformed
metadata value. -/
theorem c7_time_parsing_witness :
    modified_time ⟨[], 0, "Mon, 01 Jan 2024 12:00:00 +0000", ""⟩ =
      Except.ok ⟨2024, 1, 1, 12, 0, 0⟩ ∧
    accessed_time ⟨[], 0, "", "Mon, 01 Jan 2024 12:00:00 +0000"⟩ =
      Except.ok ⟨2024, 1, 1, 12, 0, 0⟩ ∧
    modified_time ⟨[], 0, "Mon, 32 Jan 2024 12:00:00 +0000", ""⟩ =
      Except.error "ValueError" ∧
    accessed_time ⟨[], 0, "", "yesterday"⟩ = Except.error "ValueError" :=
  ⟨c7_time_parsing.1 _ rfl,
   c7_time_parsing.2.1 _ rfl,
   c7_time_parsing.2.2.2.1 _ (by decide),
   c7_time_parsing.2.2.2.2.1 _ (by decide)⟩

/-! ## Claim theorems: `listdir` -/

theorem replaceFirstL_top (old x : List Char) :
    replaceFirstL (old ++ x) old [] = x := by
  cases old with
  | nil =>
    cases x with
    | nil => simp [replaceFirstL]
    | cons c rest => simp [replaceFirstL, List.isPrefixOf]
  | cons a old' =>
    have hpre : (a :: old').isPrefixOf ((a :: old') ++ x) = true := by
      rw [List.isPrefixOf_iff_prefix]; exact List.prefix_append _ _
    rw [show (a :: old') ++ x = a :: (old' ++ x) from rfl, replaceFirstL]
    rw [show a :: (old' ++ x) = (a :: old') ++ x from rfl]
    simp only [hpre, if_true, List.nil_append, List.drop_left]

/-- The spec-side child name: drop the queried path prefix and one leading
separator from the child's reported path. -/
def specChildName (fp p : String) : String :=
  ⟨p.data.drop (fp.data.length + 1)⟩

/-- On a child path that extends the queried path by a separator, the two
`replace(..., '', 1)` calls of the loop amount to exactly that strip. -/
theorem listdirName_eq_specChildName (fp rest : String) :
    listdirName fp (fp ++ "/" ++ rest) = specChildName fp (fp ++ "/" ++ rest) := by
  have hdata : (fp ++ "/" ++ rest).data = fp.data ++ ('/' :: rest.data) := by
    simp [String.data_append]
  have hinner : replaceFirstL (fp ++ "/" ++ rest).data fp.data [] =
      '/' :: rest.data := by
    rw [hdata, replaceFirstL_top]
  have houter : replaceFirstL ('/' :: rest.data) ['/'] [] = rest.data := by
    rw [show ('/' :: rest.data) = ['/'] ++ rest.data from rfl, replaceFirstL_top]
  have h1 : listdirName fp (fp ++ "/" ++ rest) = rest := by
    simp only [listdirName, pyReplaceFirst]
    rw [hinner, houter]
  have h2 : specChildName fp (fp ++ "/" ++ rest) = rest := by
    simp only [specChildName, hdata]
    rw [show fp.data.length + 1 = (fp.data ++ ['/']).length by simp]
    rw [show fp.data ++ ('/' :: rest.data) = (fp.data ++ ['/']) ++ rest.data by simp]
    rw [List.drop_left]
  rw [h1, h2]

/-- The append-accumulator form of the `listdir` loop. -/
theorem listdirLoop_acc (fp : String) (contents : List Entry) :
    ∀ d f : List String,
      contents.foldl
        (fun acc e =>
          let p := listdirName fp e.path
          if e.is_dir then (acc.1 ++ [p], acc.2) else (acc.1, acc.2 ++ [p]))
        (d, f) =
      (d ++ (contents.filter (fun e => e.is_dir)).map
          (fun e => listdirName fp e.path),
       f ++ (contents.filter (fun e => !e.is_dir)).map
          (fun e => listdirName fp e.path)) := by
  induction contents with
  | nil => intro d f; simp
  | cons e rest ih =>
    intro d f
    by_cases hd : e.is_dir <;>
      simp [List.foldl_cons, hd, ih, List.filter_cons, List.append_assoc]

/-- C4: `listdir` partitions the folder's immediate children, in the
remote-reported order, into directory names and file names, each name
obtained by stripping the queried path prefix and one leading separator
from the child's reported path; on a folder `"/a"` with child file
`"/a/b.txt"` and child directory `"/a/c"` it returns `(["c"], ["b.txt"])`. -/
theorem c4_listdir_partitions (root path : String) (meta : Metadata)
    (fp : String) (hfp : full_path root path = Except.ok fp)
    (hchild : ∀ e ∈ meta.contents, ∃ rest : String, e.path = fp ++ "/" ++ rest) :
    listdir root path meta = Except.ok
      ((meta.contents.filter (fun e => e.is_dir)).map
        (fun e => specChildName fp e.path),
       (meta.contents.filter (fun e => !e.is_dir)).map
        (fun e => specChildName fp e.path)) := by
  have hname : ∀ e ∈ meta.contents,
      listdirName fp e.path = specChildName fp e.path := by
    intro e he
    obtain ⟨rest, hrest⟩ := hchild e he
    rw [hrest]; exact listdirName_eq_specChildName fp rest
  have hloop : listdirLoop fp meta.contents =
      ((meta.contents.filter (fun e => e.is_dir)).map
        (fun e => specChildName fp e.path),
       (meta.contents.filter (fun e => !e.is_dir)).map
        (fun e => specChildName fp e.path)) := by
    rw [listdirLoop, listdirLoop_acc fp meta.contents [] []]
    rw [List.map_congr_left
      (fun e he => hname e (List.mem_of_mem_filter he))]
    rw [List.map_congr_left
      (fun e he => hname e (List.mem_of_mem_filter he))]
    simp
  simp only [listdir, hfp, Except.map, hloop]

/-- Witness for C4: the folder `"/a"` (with the default root `"/"`)
holding the file `"/a/b.txt"` and the directory `"/a/c"`. -/
theorem c4_listdir_partitions_witness :
    listdir "/" "/a" ⟨[⟨"/a/b.txt", false⟩, ⟨"/a/c", true⟩], 0, "", ""⟩ =
      Except.ok (["c"], ["b.txt"]) := by
  have h := c4_listdir_partitions "/" "/a"
    ⟨[⟨"/a/b.txt", false⟩, ⟨"/a/c", true⟩], 0, "", ""⟩ "/a" rfl ?hc
  · rw [h]; rfl
  case hc =>
    intro e he
    simp only [List.mem_cons, List.not_mem_nil, or_false] at he
    rcases he with rfl | rfl
    · exact ⟨"b.txt", rfl⟩
    · exact ⟨"c", rfl⟩

/-! ## Lemmas: path splitting, normalization and rendering -/

theorem splitChar_ne_nil (sep : Char) (cs : List Char) :
    splitChar sep cs ≠ [] := by
  cases cs with
  | nil => simp [splitChar]
  | cons c cs =>
    rw [splitChar]
    by_cases h : c = sep
    · simp [h]
    · cases hsp : splitChar sep cs with
      | nil => simp [h]
      | cons p ps => simp [h]

/-- Every character of every piece of a split comes from the input and is
not the separator. -/
theorem mem_of_mem_splitChar (sep : Char) :
    ∀ (cs piece : List Char), piece ∈ splitChar sep cs →
      ∀ x ∈ piece, x ∈ cs ∧ x ≠ sep := by
  intro cs
  induction cs with
  | nil =>
    intro piece hp x hx
    simp [splitChar] at hp
    subst hp
    simp at hx
  | cons c cs ih =>
    intro piece hp x hx
    rw [splitChar] at hp
    by_cases h : c = sep
    · simp [h] at hp
      rcases hp with hp | hp
      · subst hp; simp at hx
      · have := ih piece hp x hx
        exact ⟨List.mem_cons_of_mem _ this.1, this.2⟩
    · rw [if_neg h] at hp
      cases hsp : splitChar sep cs with
      | nil => exact absurd hsp (splitChar_ne_nil sep cs)
      | cons p ps =>
        rw [hsp] at hp
        simp at hp
        rcases hp with hp | hp
        · subst hp
          rcases List.mem_cons.mp hx with rfl | hx
          · exact ⟨List.mem_cons_self _ _, h⟩
          · have := ih p (hsp ▸ List.mem_cons_self p ps) x hx
            exact ⟨List.mem_cons_of_mem _ this.1, this.2⟩
        · have := ih piece (hsp ▸ List.mem_cons_of_mem p hp) x hx
          exact ⟨List.mem_cons_of_mem _ this.1, this.2⟩

/-- Every piece produced by `normStep` comes from the accumulator or the
input. -/
theorem mem_of_mem_normStep :
    ∀ (l acc : List (List Char)) (piece : List Char),
      piece ∈ normStep acc l → piece ∈ acc ∨ piece ∈ l := by
  intro l
  induction l with
  | nil => intro acc piece hp; rw [normStep] at hp; exact Or.inl hp
  | cons c cs ih =>
    intro acc piece hp
    rw [normStep] at hp
    by_cases h1 : c = [] ∨ c = ['.']
    · rw [if_pos h1] at hp
      rcases ih acc piece hp with h | h
      · exact Or.inl h
      · exact Or.inr (List.mem_cons_of_mem _ h)
    · rw [if_neg h1] at hp
      by_cases h2 : c = ['.', '.']
      · rw [if_pos h2] at hp
        rcases ih acc.dropLast piece hp with h | h
        · exact Or.inl (List.dropLast_subset acc h)
        · exact Or.inr (List.mem_cons_of_mem _ h)
      · rw [if_neg h2] at hp
        rcases ih (acc ++ [c]) piece hp with h | h
        · rcases List.mem_append.mp h with h | h
          · exact Or.inl h
          · simp at h; subst h; exact Or.inr (List.mem_cons_self _ _)
        · exact Or.inr (List.mem_cons_of_mem _ h)

/-- A component a path normalizes to is never empty, `.` or `..`. -/
theorem normStep_good :
    ∀ (l acc : List (List Char)),
      (∀ p ∈ acc, p ≠ [] ∧ p ≠ ['.'] ∧ p ≠ ['.', '.']) →
      ∀ p ∈ normStep acc l, p ≠ [] ∧ p ≠ ['.'] ∧ p ≠ ['.', '.'] := by
  intro l
  induction l with
  | nil => intro acc hacc p hp; rw [normStep] at hp; exact hacc p hp
  | cons c cs ih =>
    intro acc hacc p hp
    rw [normStep] at hp
    by_cases h1 : c = [] ∨ c = ['.']
    · rw [if_pos h1] at hp; exact ih acc hacc p hp
    · rw [if_neg h1] at hp
      by_cases h2 : c = ['.', '.']
      · rw [if_pos h2] at hp
        exact ih acc.dropLast
          (fun q hq => hacc q (List.dropLast_subset acc hq)) p hp
      · rw [if_neg h2] at hp
        refine ih (acc ++ [c]) ?_ p hp
        intro q hq
        rcases List.mem_append.mp hq with h | h
        · exact hacc q h
        · simp at h; subst h
          push_neg at h1
          exact ⟨h1.1, h1.2, h2⟩

/-- On a run of good components `normStep` just appends. -/
theorem normStep_good_id :
    ∀ (l acc : List (List Char)),
      (∀ p ∈ l, p ≠ [] ∧ p ≠ ['.'] ∧ p ≠ ['.', '.']) →
      normStep acc l = acc ++ l := by
  intro l
  induction l with
  | nil => intro acc _; rw [normStep]; simp
  | cons c cs ih =>
    intro acc hl
    obtain ⟨hc1, hc2, hc3⟩ := hl c (List.mem_cons_self _ _)
    rw [normStep, if_neg (by simp [hc1, hc2]), if_neg hc3,
      ih (acc ++ [c]) (fun p hp => hl p (List.mem_cons_of_mem _ hp))]
    simp

theorem splitChar_of_not_mem (sep : Char) :
    ∀ cs : List Char, sep ∉ cs → splitChar sep cs = [cs] := by
  intro cs
  induction cs with
  | nil => intro _; rfl
  | cons c cs ih =>
    intro h
    rw [splitChar, if_neg (by simp at h; exact Ne.symm (by simpa using h.1))]
    rw [ih (by simp at h; exact h.2)]

theorem splitChar_append (sep : Char) :
    ∀ (p t q : List Char) (qs : List (List Char)), sep ∉ p →
      splitChar sep t = q :: qs →
      splitChar sep (p ++ t) = (p ++ q) :: qs := by
  intro p
  induction p with
  | nil => intro t q qs _ ht; simpa using ht
  | cons a p' ih =>
    intro t q qs hmem ht
    have ha : ¬ a = sep := by
      intro h; exact hmem (by simp [h])
    have hp' : sep ∉ p' := fun h => hmem (List.mem_cons_of_mem _ h)
    rw [List.cons_append, splitChar, if_neg ha, ih t q qs hp' ht]
    rfl

/-- Characters of a rendered path are the separator or come from one of
the components. -/
theorem mem_joinSep (sep : Char) :
    ∀ (l : List (List Char)) (x : Char), x ∈ joinSep sep l →
      x = sep ∨ ∃ p ∈ l, x ∈ p := by
  intro l
  induction l with
  | nil => intro x hx; simp [joinSep] at hx
  | cons p ps ih =>
    intro x hx
    cases ps with
    | nil => exact Or.inr ⟨p, by simp, by simpa [joinSep] using hx⟩
    | cons p2 ps2 =>
      have hj : joinSep sep (p :: p2 :: ps2) =
          p ++ sep :: joinSep sep (p2 :: ps2) := rfl
      rw [hj] at hx
      rcases List.mem_append.mp hx with h | h
      · exact Or.inr ⟨p, by simp, h⟩
      · rcases List.mem_cons.mp h with rfl | h
        · exact Or.inl rfl
        · rcases ih x h with h | ⟨q, hq, hxq⟩
          · exact Or.inl h
          · exact Or.inr ⟨q, List.mem_cons_of_mem _ hq, hxq⟩

/-- Splitting undoes joining on separator-free, non-empty components. -/
theorem splitChar_joinSep (sep : Char) :
    ∀ l : List (List Char), (∀ p ∈ l, p ≠ [] ∧ sep ∉ p) → l ≠ [] →
      splitChar sep (joinSep sep l) = l := by
  intro l
  induction l with
  | nil => intro _ h; exact absurd rfl h
  | cons p ps ih =>
    intro hgood _
    cases ps with
    | nil =>
      rw [joinSep, splitChar_of_not_mem sep p (hgood p (by simp)).2]
    | cons p2 ps2 =>
      have hj : joinSep sep (p :: p2 :: ps2) =
          p ++ sep :: joinSep sep (p2 :: ps2) := rfl
      rw [hj]
      have hrec : splitChar sep (joinSep sep (p2 :: ps2)) = p2 :: ps2 :=
        ih (fun q hq => hgood q (List.mem_cons_of_mem _ hq)) (by simp)
      have hsep : splitChar sep (sep :: joinSep sep (p2 :: ps2)) =
          [] :: p2 :: ps2 := by
        rw [splitChar, if_pos rfl, hrec]
      rw [splitChar_append sep p (sep :: joinSep sep (p2 :: ps2)) []
        (p2 :: ps2) (hgood p (by simp)).2 hsep]
      simp

/-- Components of a normalized path are non-empty and not `.` or `..`. -/
theorem pathCompsL_good (cs : List Char) :
    ∀ p ∈ pathCompsL cs, p ≠ [] ∧ p ≠ ['.'] ∧ p ≠ ['.', '.'] :=
  normStep_good (splitChar '/' cs) [] (by simp)

/-- Components of a normalized path never contain the separator. -/
theorem pathCompsL_no_sep (cs : List Char) :
    ∀ p ∈ pathCompsL cs, '/' ∉ p := by
  intro p hp hx
  rcases mem_of_mem_normStep (splitChar '/' cs) [] p hp with h | h
  · simp at h
  · exact (mem_of_mem_splitChar '/' cs p h '/' hx).2 rfl

/-- Characters of a normalized path's components come from the input. -/
theorem pathCompsL_chars (cs : List Char) :
    ∀ p ∈ pathCompsL cs, ∀ x ∈ p, x ∈ cs := by
  intro p hp x hx
  rcases mem_of_mem_normStep (splitChar '/' cs) [] p hp with h | h
  · simp at h
  · exact (mem_of_mem_splitChar '/' cs p h x hx).1

/-- Normalizing a rendered good component list gives it back. -/
theorem pathCompsL_renderAbs (l : List (List Char))
    (hgood : ∀ p ∈ l, p ≠ [] ∧ p ≠ ['.'] ∧ p ≠ ['.', '.'] ∧ '/' ∉ p) :
    pathCompsL (renderAbs l) = l := by
  cases l with
  | nil => rfl
  | cons p ps =>
    have hsplit : splitChar '/' (renderAbs (p :: ps)) = [] :: p :: ps := by
      rw [renderAbs, splitChar, if_pos rfl,
        splitChar_joinSep '/' (p :: ps)
          (fun q hq => ⟨(hgood q hq).1, (hgood q hq).2.2.2⟩) (by simp)]
    rw [pathCompsL, hsplit, normStep, if_pos (Or.inl rfl),
      normStep_good_id (p :: ps) []
        (fun q hq => ⟨(hgood q hq).1, (hgood q hq).2.1, (hgood q hq).2.2.1⟩)]
    simp

/-- Characters of a rendered path: the separator or a component char. -/
theorem mem_renderAbs (l : List (List Char)) (x : Char)
    (h : x ∈ renderAbs l) : x = '/' ∨ ∃ p ∈ l, x ∈ p := by
  rcases List.mem_cons.mp h with rfl | h
  · exact Or.inl rfl
  · exact mem_joinSep '/' l x h

/-- Characters of `os.path.join` come from an operand or are a slash. -/
theorem mem_osJoin (b p : List Char) (x : Char) (h : x ∈ osJoin b p) :
    x ∈ b ∨ x ∈ p ∨ x = '/' := by
  unfold osJoin at h
  split at h
  · exact Or.inr (Or.inl h)
  · split at h
    · rcases List.mem_append.mp h with h | h
      · exact Or.inl h
      · exact Or.inr (Or.inl h)
    · rcases List.mem_append.mp h with h | h
      · exact Or.inl h
      · rcases List.mem_cons.mp h with rfl | h
        · exact Or.inr (Or.inr rfl)
        · exact Or.inr (Or.inl h)
    · exact Or.inr (Or.inl h)

/-- What a successful `safe_join` returns: the rendered normalized join,
guarded by the containment check. -/
theorem safe_join_ok (base p r : String)
    (h : safe_join base p = Except.ok r) :
    r.data = renderAbs (pathCompsL (osJoin base.data p.data)) ∧
    (pathCompsL base.data).isPrefixOf
      (pathCompsL (osJoin base.data p.data)) = true := by
  rw [safe_join] at h
  split at h
  · refine ⟨?_, by assumption⟩
    cases h
    rfl
  · cases h

theorem pyReplaceAllChar_of_not_mem (c r : Char) (l : List Char)
    (h : c ∉ l) : pyReplaceAllChar c r l = l := by
  rw [pyReplaceAllChar]
  have he : ∀ x ∈ l, (if x = c then r else x) = x := by
    intro x hx
    rw [if_neg]
    intro hc
    subst hc
    exact h hx
  rw [List.map_congr_left he]
  exact List.map_id l

theorem not_mem_pyReplaceAllChar (c r : Char) (l : List Char)
    (hcr : c ≠ r) : c ∉ pyReplaceAllChar c r l := by
  intro h
  rcases List.mem_map.mp h with ⟨y, _, hy⟩
  by_cases hyc : y = c
  · rw [if_pos hyc] at hy; exact hcr hy.symm
  · rw [if_neg hyc] at hy; exact hyc hy

/-- What a successful `_full_path` returns: the `safe_join` result with
all backslashes rewritten to slashes. -/
theorem full_path_ok (root name r : String)
    (h : full_path root name = Except.ok r) :
    ∃ s, safe_join root (if name = "/" then "" else name) = Except.ok s ∧
      r.data = pyReplaceAllChar '\\' '/' s.data := by
  rw [full_path] at h
  cases hsj : safe_join root (if name = "/" then "" else name) with
  | error e => rw [hsj] at h; cases h
  | ok s =>
    rw [hsj] at h
    cases h
    exact ⟨s, rfl, rfl⟩

/-! ## Claim theorems: path resolution -/

/-- C3 counterexample: the backslash rewrite happens only after the
`safe_join` containment check, so a name whose `..` segments are encoded
with backslashes passes the check as a single opaque component and is then
turned into a traversing path.  Concretely, with root `"/root"`, the name
`a\..\..\etc` resolves without error to `"/root/a/../../etc"`, which under
POSIX path semantics lies outside the root (it normalizes to `/etc`). -/
theorem c3_full_path_counterexample :
    full_path "/root" "a\\..\\..\\etc" = Except.ok "/root/a/../../etc" ∧
    resolvesInside "/root" "/root/a/../../etc" = false := by
  constructor
  · rfl
  · rfl

/-- C3 (amended): for a configured root and a name that contain no
backslash character, `_full_path` never yields a path outside the root;
a bare `"/"` is treated as the empty name; and every result has all its
path separators normalized to forward slashes (no backslash remains). -/
theorem c3_full_path_amended :
    (∀ root name r : String, '\\' ∉ root.data → '\\' ∉ name.data →
      full_path root name = Except.ok r → resolvesInside root r = true) ∧
    (∀ root : String, full_path root "/" = full_path root "") ∧
    (∀ root name r : String, full_path root name = Except.ok r →
      '\\' ∉ r.data) := by
  refine ⟨?_, ?_, ?_⟩
  · intro root name r hroot hname h
    obtain ⟨s, hsj, hrepl⟩ := full_path_ok root name r h
    obtain ⟨hsdata, hguard⟩ := safe_join_ok root _ s hsj
    set name' : String := if name = "/" then "" else name with hname'
    have hname'bs : '\\' ∉ name'.data := by
      rw [hname']
      split
      · intro hmem; simp at hmem
      · exact hname
    set fc := pathCompsL (osJoin root.data name'.data) with hfc
    have hfc_bs : ∀ p ∈ fc, '\\' ∉ p := by
      intro p hp hmem
      have hx := pathCompsL_chars (osJoin root.data name'.data) p hp '\\' hmem
      rcases mem_osJoin root.data name'.data '\\' hx with h | h | h
      · exact hroot h
      · exact hname'bs h
      · cases h
    have hs_bs : '\\' ∉ s.data := by
      rw [hsdata]
      intro hmem
      rcases mem_renderAbs fc '\\' hmem with h | ⟨p, hp, hxp⟩
      · cases h
      · exact hfc_bs p hp hxp
    have hr : r.data = s.data := by
      rw [hrepl, pyReplaceAllChar_of_not_mem '\\' '/' s.data hs_bs]
    have hround : pathCompsL r.data = fc := by
      rw [hr, hsdata]
      exact pathCompsL_renderAbs fc
        (fun p hp => ⟨(pathCompsL_good _ p hp).1, (pathCompsL_good _ p hp).2.1,
          (pathCompsL_good _ p hp).2.2, pathCompsL_no_sep _ p hp⟩)
    rw [resolvesInside, pathComps, pathComps, hround]
    exact hguard
  · intro root
    rfl
  · intro root name r h
    obtain ⟨s, _, hrepl⟩ := full_path_ok root name r h
    rw [hrepl]
    exact not_mem_pyReplaceAllChar '\\' '/' s.data (by decide)

/-- Witness for C3's amended statement: root `"/photos"`, name
`"albums/2024.jpg"`. -/
theorem c3_full_path_amended_witness :
    resolvesInside "/photos" "/photos/albums/2024.jpg" = true ∧
    full_path "/photos" "/" = full_path "/photos" "" ∧
    '\\' ∉ ("/photos/albums/2024.jpg" : String).data :=
  ⟨c3_full_path_amended.1 "/photos" "albums/2024.jpg"
      "/photos/albums/2024.jpg" (by decide) (by decide) (by rfl),
   c3_full_path_amended.2.1 "/photos",
   c3_full_path_amended.2.2 "/photos" "albums/2024.jpg"
      "/photos/albums/2024.jpg" (by rfl)⟩

end DropboxBackend
